import Mathlib

/-!
Verification development for the PSK/PSA Blender add-on
(io_import_scene_unreal_psa_psk_283): a shallow embedding of
psa_exporter.py (build_psa, write_psa, psa_export) and of the header
magic gate of psk/importer.py (pskimport), together with theorems about
the frame sampler, the bone records, the sequence records and the error
paths.

Modelling conventions: Python ints are ℤ, Python floats are exact
rationals ℚ, Python byte strings and text strings are lists of natural
numbers (byte values, respectively Unicode code points), and raising an
exception is Except.error carrying the message. Quantities that depend
on the host application state (pose matrices, bone matrices) are outside
the embedding; everything else follows the source line by line.
-/

deriving instance DecidableEq for Except

namespace PsaPsk

/-- Python int(x) on a float: truncation toward zero. -/
def pyInt (q : ℚ) : ℤ := if 0 ≤ q then ⌊q⌋ else ⌈q⌉

/-- Code points of an ASCII string, used to build the exact error
message texts of the source. -/
def asciiStr (s : String) : List Nat := s.data.map Char.toNat

/-- Encoding of one Unicode code point under the Windows-1252 codec, as
used by bytes(name, encoding=windows-1252) in the source: code points
below 128 and the Latin-1 block 160-255 map to themselves, 27 code
points map into the 128-159 byte range, and every other code point has
no byte, which makes the strict codec raise UnicodeEncodeError. -/
def cp1252EncodeChar (c : Nat) : Option Nat :=
  if c < 128 then some c
  else if 160 ≤ c ∧ c ≤ 255 then some c
  else if c = 8364 then some 128
  else if c = 8218 then some 130
  else if c = 402 then some 131
  else if c = 8222 then some 132
  else if c = 8230 then some 133
  else if c = 8224 then some 134
  else if c = 8225 then some 135
  else if c = 710 then some 136
  else if c = 8240 then some 137
  else if c = 352 then some 138
  else if c = 8249 then some 139
  else if c = 338 then some 140
  else if c = 381 then some 142
  else if c = 8216 then some 145
  else if c = 8217 then some 146
  else if c = 8220 then some 147
  else if c = 8221 then some 148
  else if c = 8226 then some 149
  else if c = 8211 then some 150
  else if c = 8212 then some 151
  else if c = 732 then some 152
  else if c = 8482 then some 153
  else if c = 353 then some 154
  else if c = 8250 then some 155
  else if c = 339 then some 156
  else if c = 382 then some 158
  else if c = 376 then some 159
  else none

/-- bytes(s, encoding=windows-1252): encodes every code point, or fails
on the first code point without a byte. -/
def cp1252Encode : List Nat → Option (List Nat)
  | [] => some []
  | c :: cs =>
    match cp1252EncodeChar c with
    | none => none
    | some b =>
      match cp1252Encode cs with
      | none => none
      | some bs => some (b :: bs)

/-- Message of the RuntimeError raised at psa_exporter.py line 358 for a
bone name that the Windows-1252 codec rejects. -/
def boneNameErrMsg (name : List Nat) : List Nat :=
  asciiStr "Bone name \"" ++ name ++
    asciiStr "\" contains characters that cannot be encoded in the Windows-1252 codepage"

/-- Message of the RuntimeError raised at psa_exporter.py line 435 for a
sequence name that the Windows-1252 codec rejects. -/
def seqNameErrMsg (name : List Nat) : List Nat :=
  asciiStr "Sequence name \"" ++ name ++
    asciiStr "\" contains characters that cannot be encoded in the Windows-1252 codepage"

/-- An armature bone as handed to build_psa: an identity (Blender bone
objects compare by identity in list.index), its name as code points, and
the identity of its parent bone, if it has one. The matrix and head/tail
data used for the rotation and location fields live in the host
application and are outside the embedding. -/
structure ArmBone where
  id : Nat
  name : List Nat
  parent : Option Nat
deriving DecidableEq, Repr

/-- Psa.Bone record of the exporter. The fields name, flags,
children_count and parent_index are modelled; rotation and location are
computed from host-application matrices (psa_exporter.py lines 367-388)
and are outside the embedding; the padding field carries no data. -/
structure Psa.Bone where
  name : List Nat
  flags : Int
  children_count : Int
  parent_index : Int
deriving DecidableEq, Repr

/-- bones.index(bone.parent) at psa_exporter.py line 361: position of
the first bone in the export list whose identity matches the parent,
none when the bone has no parent or the parent is not in the list (the
ValueError branch of the source). -/
def parentIndexOf (bones : List ArmBone) (b : ArmBone) : Option Nat :=
  b.parent.bind (fun pid => bones.findIdx? (fun x => x.id == pid))

/-- Pointwise update of the element at one position of a list; other
positions and out-of-range indices are untouched. -/
def listModify (f : α → α) : Nat → List α → List α
  | _, [] => []
  | 0, a :: as => f a :: as
  | n + 1, a :: as => a :: listModify f n as

/-- psa.bones[parent_index].children_count += 1 at line 363. -/
def bumpChildren (p : Nat) (acc : List Psa.Bone) : List Psa.Bone :=
  listModify (fun x => { x with children_count := x.children_count + 1 }) p acc

/-- The bone loop of build_psa (psa_exporter.py lines 352-390). The
first argument is the full export bone list (searched by list.index),
the second the bones still to process, the third the psa.bones built so
far. Per bone: encode the name (RuntimeError on failure, ValueError from
ctypes when the encoding exceeds the 64 byte field), resolve the parent
position (the ValueError branch leaves parent_index 0 and increments
nothing), and increment the children_count of the already-built parent
record (an IndexError propagates when the parent position is not yet
built). -/
def buildBonesAux (bones : List ArmBone) :
    List ArmBone → List Psa.Bone → Except (List Nat) (List Psa.Bone)
  | [], acc => Except.ok acc
  | b :: rest, acc =>
    match cp1252Encode b.name with
    | none => Except.error (boneNameErrMsg b.name)
    | some nm =>
      if nm.length ≤ 64 then
        match parentIndexOf bones b with
        | none => buildBonesAux bones rest (acc ++ [⟨nm, 0, 0, 0⟩])
        | some p =>
          if p < acc.length then
            buildBonesAux bones rest (bumpChildren p acc ++ [⟨nm, 0, 0, (p : Int)⟩])
          else Except.error (asciiStr "list index out of range")
      else Except.error (asciiStr "byte string too long")

/-- The list of Psa.Bone records built by the bone loop of build_psa. -/
def buildBones (bones : List ArmBone) : Except (List Nat) (List Psa.Bone) :=
  buildBonesAux bones bones []

/-- Number of bones of the list l whose parent resolves (by identity
lookup in the export list) to position i. -/
def countRes (bones l : List ArmBone) (i : Nat) : Nat :=
  (l.filter (fun b => parentIndexOf bones b == some i)).length

/-- One export sequence as handed to build_psa: the source class
PsaBuildSequence with its nested NlaState flattened (name, nla_state
frame_start and frame_end, compression_ratio, key_quota, fps). The
nla_state action object is host-application state. -/
structure PsaBuildSequence where
  name : List Nat
  frame_start : Int
  frame_end : Int
  compression_ratio : ℚ
  key_quota : Int
  fps : ℚ
deriving DecidableEq, Repr

/-- frame_extents at psa_exporter.py line 416: abs(frame_end - frame_start). -/
def frame_extents (s : PsaBuildSequence) : Int := |s.frame_end - s.frame_start|

/-- frame_count_raw at line 417: frame_extents + 1. -/
def frame_count_raw (s : PsaBuildSequence) : Int := frame_extents s + 1

/-- frame_count at line 418:
max(key_quota, int(frame_count_raw * compression_ratio)). -/
def frame_count (s : PsaBuildSequence) : Int :=
  max s.key_quota (pyInt ((frame_count_raw s : ℚ) * s.compression_ratio))

/-- frame_step at lines 420-429: frame_extents / (frame_count - 1), with
the ZeroDivisionError handler giving 0.0 when frame_count is 1, negated
for a reversed range (frame_start > frame_end). -/
def frame_step (s : PsaBuildSequence) : ℚ :=
  let step : ℚ :=
    if frame_count s - 1 = 0 then 0
    else (frame_extents s : ℚ) / ((frame_count s - 1 : Int) : ℚ)
  if s.frame_end < s.frame_start then -step else step

/-- sequence_duration at line 425: frame_count_raw / export_sequence.fps. -/
def sequence_duration (s : PsaBuildSequence) : ℚ :=
  (frame_count_raw s : ℚ) / s.fps

/-- Psa.Sequence record of the exporter, restricted to the fields the
source assigns (lines 431-441); group, root_include, compression_style,
key_quotum and start_bone stay ctypes zero-initialized and carry no
modelled data. -/
structure Psa.Sequence where
  name : List Nat
  bone_count : Int
  key_reduction : ℚ
  track_time : ℚ
  fps : ℚ
  frame_start_index : Int
  frame_count : Int
deriving DecidableEq, Repr

/-- Psa.Key record of the exporter. The location and rotation fields
come from pose evaluation in the host application and are outside the
embedding; the frame field records the timeline cursor at which the
sample was taken and the bone field the position of the pose bone in the
export bone order, identifying which sample the key is. -/
structure Psa.Key where
  frame : ℚ
  bone : Nat
  time : ℚ
deriving DecidableEq, Repr

/-- The key emission loops of one sequence (lines 443-462): frame_count
samples, the cursor starting at frame_start and advancing by frame_step,
and one key per pose bone per sample, each with
time = 1.0 / psa_sequence.fps where
psa_sequence.fps = frame_count / sequence_duration (lines 438, 459).
range(frame_count) is empty when frame_count is not positive. -/
def buildSequenceKeys (boneCount : Nat) (s : PsaBuildSequence) : List Psa.Key :=
  (List.range (frame_count s).toNat).flatMap (fun i =>
    (List.range boneCount).map (fun b =>
      { frame := (s.frame_start : ℚ) + (i : ℚ) * frame_step s,
        bone := b,
        time := 1 / ((frame_count s : ℚ) / sequence_duration s) }))

/-- The Psa.Sequence record value assigned at lines 431-441, as a total
function of the inputs (name encoding already checked by the caller). -/
def mkSeqRec (boneCount : Nat) (fsi : Int) (s : PsaBuildSequence) : Psa.Sequence :=
  { name := (cp1252Encode s.name).getD [],
    bone_count := (boneCount : Int),
    key_reduction := 1,
    track_time := (frame_count s : ℚ),
    fps := (frame_count s : ℚ) / sequence_duration s,
    frame_start_index := fsi,
    frame_count := frame_count s }

/-- Construction of one Psa.Sequence record (lines 431-441): the name is
encoded first (RuntimeError naming the sequence on a Windows-1252
failure, ValueError from ctypes past 64 bytes), then the fields are
filled in. -/
def buildSequenceRec (boneCount : Nat) (fsi : Int) (s : PsaBuildSequence) :
    Except (List Nat) Psa.Sequence :=
  match cp1252Encode s.name with
  | none => Except.error (seqNameErrMsg s.name)
  | some nm =>
    if nm.length ≤ 64 then Except.ok (mkSeqRec boneCount fsi s)
    else Except.error (asciiStr "byte string too long")

/-- psa.sequences[name] = record on the OrderedDict (line 466): an
existing key keeps its position and gets the new value, a new key is
appended. -/
def odInsert (l : List (List Nat × Psa.Sequence)) (k : List Nat) (v : Psa.Sequence) :
    List (List Nat × Psa.Sequence) :=
  if l.any (fun p => p.1 == k) then
    l.map (fun p => if p.1 == k then (k, v) else p)
  else l ++ [(k, v)]

/-- The sequence loop of build_psa (lines 403-468): processes the export
sequences in order, building each Psa.Sequence record at the running
frame_start_index, appending its keys to the flat key list, inserting
the record into the OrderedDict under the sequence name, and advancing
frame_start_index by frame_count (line 464). -/
def buildSequencesAux (boneCount : Nat) :
    List PsaBuildSequence → List (List Nat × Psa.Sequence) → List Psa.Key → Int →
    Except (List Nat) (List (List Nat × Psa.Sequence) × List Psa.Key)
  | [], od, keys, _ => Except.ok (od, keys)
  | s :: rest, od, keys, fsi =>
    match buildSequenceRec boneCount fsi s with
    | Except.error e => Except.error e
    | Except.ok sq =>
      buildSequencesAux boneCount rest (odInsert od s.name sq)
        (keys ++ buildSequenceKeys boneCount s) (fsi + frame_count s)

/-- Code points that Python str.strip removes (str.isspace). -/
def pyWhitespaceChars : List Nat :=
  [9, 10, 11, 12, 13, 28, 29, 30, 31, 32, 133, 160, 5760,
   8192, 8193, 8194, 8195, 8196, 8197, 8198, 8199, 8200, 8201, 8202,
   8232, 8233, 8239, 8287, 12288]

/-- Python str.strip(): drop leading and trailing whitespace. -/
def pyStrip (s : List Nat) : List Nat :=
  ((s.dropWhile (fun c => pyWhitespaceChars.contains c)).reverse.dropWhile
    (fun c => pyWhitespaceChars.contains c)).reverse

/-- The build options of build_psa restricted to the modelled fields:
the export sequences and the sequence name decorations applied at lines
392-395 (the bone filter settings act upstream of the bone list handed
in here, and root_motion only affects pose evaluation, which is outside
the embedding). The fields namePre and nameSuf model the sequence name
decoration options of the source. -/
structure PsaBuildOptions where
  sequences : List PsaBuildSequence
  namePre : List Nat
  nameSuf : List Nat
deriving DecidableEq, Repr

/-- The in-memory Psa value returned by build_psa: the bone records, the
OrderedDict of sequence records in insertion order, and the flat key
list. -/
structure Psa where
  bones : List Psa.Bone
  sequences : List (List Nat × Psa.Sequence)
  keys : List Psa.Key
deriving DecidableEq, Repr

/-- build_psa (psa_exporter.py lines 318-476), on the parts inside the
embedding: the zero-bone check at line 344 raises before anything else,
then the bone records are built, then every sequence name gets the
decorations applied and whitespace stripped (lines 392-395), then the
sequence loop runs. -/
def build_psa (bones : List ArmBone) (options : PsaBuildOptions) :
    Except (List Nat) Psa :=
  if bones.length = 0 then
    Except.error (asciiStr "No bones available for export")
  else
    match buildBones bones with
    | Except.error e => Except.error e
    | Except.ok pbones =>
      match buildSequencesAux bones.length
          (options.sequences.map (fun s =>
            { s with name := pyStrip (options.namePre ++ s.name ++ options.nameSuf) }))
          [] [] 0 with
      | Except.error e => Except.error e
      | Except.ok (od, keys) => Except.ok ⟨pbones, od, keys⟩

/-- psa_export (lines 203-204) runs psa = build_psa(context, options)
and only then write_psa(psa, filepath); write_psa (line 146) is where
open(path) happens. This flag records whether the output file is ever
opened: true exactly when build_psa returned instead of raising. -/
def psa_export_opens_file (bones : List ArmBone) (options : PsaBuildOptions) : Bool :=
  (build_psa bones options).isOk

/-- Little-endian two-complement int32 from four byte values, the ctypes
c_int32 field layout used by Section. -/
def int32LE (b0 b1 b2 b3 : Nat) : Int :=
  let u : Nat := b0 + 256 * b1 + 65536 * b2 + 16777216 * b3
  if u < 2147483648 then (u : Int) else (u : Int) - 4294967296

/-- Byte at position i of a byte list, zero past the end: readinto on a
short stream leaves the remaining ctypes fields zero-initialized. -/
def byteAt (bytes : List Nat) (i : Nat) : Nat := (bytes.get? i).getD 0

/-- Section header of the chunked container (20 byte name, then three
int32 fields), shared by the exporter and the importer. -/
structure Section where
  name : List Nat
  type_flags : Int
  data_size : Int
  data_count : Int
deriving DecidableEq, Repr

/-- file.readinto(header) at psk/importer.py line 28: decode the first
32 bytes of the stream as a Section header. -/
def readSectionHeader (bytes : List Nat) : Section :=
  { name := (List.range 20).map (byteAt bytes),
    type_flags := int32LE (byteAt bytes 20) (byteAt bytes 21) (byteAt bytes 22) (byteAt bytes 23),
    data_size := int32LE (byteAt bytes 24) (byteAt bytes 25) (byteAt bytes 26) (byteAt bytes 27),
    data_count := int32LE (byteAt bytes 28) (byteAt bytes 29) (byteAt bytes 30) (byteAt bytes 31) }

/-- Outcome of the pskimport header gate: failed means the error
callback received the message and the function returned False with no
model built; proceeded means the magic matched and decoding continues
with the section data (the downstream read_psk_data and scene building
depend on host-application state and are outside the modelled
fragment). -/
inductive PskImportResult where
  | failed (message : List Nat)
  | proceeded (header : Section)
deriving DecidableEq, Repr

/-- pskimport, psk/importer.py lines 26-31: read the first section
header and reject the file when its type_flags is not the magic constant
1999801, reporting the error and returning False before any model
object is created. -/
def pskimport (filepath : List Nat) (bytes : List Nat) : PskImportResult :=
  let header := readSectionHeader bytes
  if header.type_flags ≠ 1999801 then
    PskImportResult.failed
      (asciiStr "File " ++ filepath ++ asciiStr " is not a valid PSK file.")
  else
    PskImportResult.proceeded header

/-! General lemmas about the embedded definitions. -/

theorem frame_count_raw_pos (s : PsaBuildSequence) : 1 ≤ frame_count_raw s := by
  unfold frame_count_raw frame_extents
  have := abs_nonneg (s.frame_end - s.frame_start)
  omega

theorem pyInt_of_nonneg {q : ℚ} (h : 0 ≤ q) : pyInt q = ⌊q⌋ := by
  unfold pyInt
  exact if_pos h

theorem pyInt_intCast (n : Int) : pyInt ((n : ℚ) * 1) = n := by
  rw [mul_one]
  unfold pyInt
  rcases le_or_lt 0 (n : ℚ) with h | h
  · rw [if_pos h, Int.floor_intCast]
  · rw [if_neg (not_le.mpr h), Int.ceil_intCast]

/-! Claim C1: frame count formula. -/

/-- C1 (amended): for a nonnegative compression ratio the sampled frame
count equals max(quota, floor(raw_frame_count * compression_ratio)) —
Python int() truncates the nonnegative product toward zero rather than
rounding it — and for compression_ratio = 1.0 and quota = 0 the frame
count equals abs(frame_end - frame_start) + 1 exactly. -/
theorem C1_frame_count_truncates (s : PsaBuildSequence) (h : 0 ≤ s.compression_ratio) :
    frame_count s = max s.key_quota ⌊(frame_count_raw s : ℚ) * s.compression_ratio⌋ ∧
    (s.compression_ratio = 1 → s.key_quota = 0 →
      frame_count s = |s.frame_end - s.frame_start| + 1) := by
  constructor
  · unfold frame_count
    rw [pyInt_of_nonneg]
    have h1 : (0 : ℚ) ≤ (frame_count_raw s : ℚ) := by
      exact_mod_cast le_trans (by omega) (frame_count_raw_pos s)
    exact mul_nonneg h1 h
  · intro hr hq
    unfold frame_count
    rw [hr, hq, pyInt_intCast]
    have := frame_count_raw_pos s
    have : frame_count_raw s = |s.frame_end - s.frame_start| + 1 := rfl
    omega

/-- Witness for C1 at a concrete input: 7 raw frames at ratio 1/2 give
floor(7/2) = 3 frames, and ratio 1 with quota 0 keeps all raw frames. -/
theorem C1_frame_count_truncates_witness :
    frame_count ⟨[65], 0, 6, 1/2, 0, 30⟩ =
      max (⟨[65], 0, 6, 1/2, 0, 30⟩ : PsaBuildSequence).key_quota
        ⌊(frame_count_raw ⟨[65], 0, 6, 1/2, 0, 30⟩ : ℚ) *
          (⟨[65], 0, 6, 1/2, 0, 30⟩ : PsaBuildSequence).compression_ratio⌋ ∧
    ((⟨[65], 0, 6, 1/2, 0, 30⟩ : PsaBuildSequence).compression_ratio = 1 →
      (⟨[65], 0, 6, 1/2, 0, 30⟩ : PsaBuildSequence).key_quota = 0 →
      frame_count ⟨[65], 0, 6, 1/2, 0, 30⟩ =
        |(⟨[65], 0, 6, 1/2, 0, 30⟩ : PsaBuildSequence).frame_end -
          (⟨[65], 0, 6, 1/2, 0, 30⟩ : PsaBuildSequence).frame_start| + 1) :=
  C1_frame_count_truncates ⟨[65], 0, 6, 1/2, 0, 30⟩ (by norm_num)

unseal Rat.mul Rat.inv Rat.add Rat.sub in
/-- C1 counterexample to the claim as stated: with frame range 0..6
(7 raw frames), compression_ratio 1/2 and quota 0 the code computes
int(3.5) = 3 frames, while the claim formula max(quota, round(3.5))
gives 4. -/
theorem C1_round_refuted :
    frame_count ⟨[65], 0, 6, 1/2, 0, 30⟩ = 3 ∧
    max (⟨[65], 0, 6, 1/2, 0, 30⟩ : PsaBuildSequence).key_quota
      (round ((frame_count_raw ⟨[65], 0, 6, 1/2, 0, 30⟩ : ℚ) *
        (⟨[65], 0, 6, 1/2, 0, 30⟩ : PsaBuildSequence).compression_ratio)) = 4 ∧
    (3 : Int) ≠ 4 := by
  decide

/-! Claim C3: frame count lower bounds. -/

/-- C3 (amended): the computed frame count always satisfies
frame_count ≥ quota; the bound frame_count ≥ 1 does not hold for every
compression ratio in the unit interval, but it does hold whenever the
quota is at least 1 or the compression ratio is exactly 1. -/
theorem C3_frame_count_bounds (s : PsaBuildSequence) :
    s.key_quota ≤ frame_count s ∧
    ((1 ≤ s.key_quota ∨ s.compression_ratio = 1) → 1 ≤ frame_count s) := by
  refine ⟨le_max_left _ _, ?_⟩
  rintro (hq | hr)
  · exact le_trans hq (le_max_left _ _)
  · have h2 : pyInt ((frame_count_raw s : ℚ) * s.compression_ratio) = frame_count_raw s := by
      rw [hr]
      exact pyInt_intCast _
    unfold frame_count
    rw [h2]
    exact le_trans (frame_count_raw_pos s) (le_max_right _ _)

/-- Witness for C3 at a concrete input with ratio 1. -/
theorem C3_frame_count_bounds_witness :
    (⟨[65], 0, 6, 1, 2, 30⟩ : PsaBuildSequence).key_quota ≤ frame_count ⟨[65], 0, 6, 1, 2, 30⟩ ∧
    1 ≤ frame_count ⟨[65], 0, 6, 1, 2, 30⟩ :=
  ⟨(C3_frame_count_bounds ⟨[65], 0, 6, 1, 2, 30⟩).1,
   (C3_frame_count_bounds ⟨[65], 0, 6, 1, 2, 30⟩).2 (Or.inl (by norm_num))⟩

unseal Rat.mul Rat.inv Rat.add Rat.sub in
/-- C3 counterexample to the claim as stated: compression_ratio 0 is in
the unit interval and quota 0 is nonnegative, yet the computed frame
count is 0, violating frame_count ≥ 1. -/
theorem C3_min_one_refuted :
    (0 : ℚ) ≤ (⟨[65], 0, 6, 0, 0, 30⟩ : PsaBuildSequence).compression_ratio ∧
    (⟨[65], 0, 6, 0, 0, 30⟩ : PsaBuildSequence).compression_ratio ≤ 1 ∧
    (0 : Int) ≤ (⟨[65], 0, 6, 0, 0, 30⟩ : PsaBuildSequence).key_quota ∧
    frame_count ⟨[65], 0, 6, 0, 0, 30⟩ = 0 ∧
    ¬ (1 ≤ frame_count ⟨[65], 0, 6, 0, 0, 30⟩) := by
  decide

/-! Claim C4: frame step. -/

/-- C4 (amended): the sampling frame step equals
(frame_end - frame_start) / (frame_count - 1) when frame_count > 1 — in
particular it is negative for a reversed range — and equals 0 when
frame_count = 1 (the ZeroDivisionError handler); when frame_count = 0,
however, the step is not 0: the division by frame_count - 1 = -1 goes
through and yields -frame_extents for a forward range and
+frame_extents for a reversed range. -/
theorem C4_frame_step_cases (s : PsaBuildSequence) :
    (1 < frame_count s →
      frame_step s = ((s.frame_end - s.frame_start : Int) : ℚ) / ((frame_count s - 1 : Int) : ℚ)) ∧
    (frame_count s = 1 → frame_step s = 0) ∧
    (frame_count s = 0 →
      frame_step s =
        if s.frame_end < s.frame_start then (frame_extents s : ℚ) else -(frame_extents s : ℚ)) ∧
    (s.frame_end < s.frame_start → 1 < frame_count s → frame_step s < 0) := by
  have hstep : frame_step s =
      if s.frame_end < s.frame_start then
        -(if frame_count s - 1 = 0 then (0 : ℚ)
          else (frame_extents s : ℚ) / ((frame_count s - 1 : Int) : ℚ))
      else
        (if frame_count s - 1 = 0 then (0 : ℚ)
          else (frame_extents s : ℚ) / ((frame_count s - 1 : Int) : ℚ)) := by
    unfold frame_step
    split <;> rfl
  refine ⟨?_, ?_, ?_, ?_⟩
  · intro h
    have hne : ¬ (frame_count s - 1 = 0) := by omega
    rw [hstep]
    by_cases hdir : s.frame_end < s.frame_start
    · rw [if_pos hdir, if_neg hne]
      have hext : frame_extents s = -(s.frame_end - s.frame_start) := abs_of_neg (by omega)
      rw [hext]
      push_cast
      ring
    · rw [if_neg hdir, if_neg hne]
      have hext : frame_extents s = s.frame_end - s.frame_start :=
        abs_of_nonneg (by omega)
      rw [hext]
  · intro h
    have he : frame_count s - 1 = 0 := by omega
    rw [hstep]
    by_cases hdir : s.frame_end < s.frame_start
    · rw [if_pos hdir, if_pos he, neg_zero]
    · rw [if_neg hdir, if_pos he]
  · intro h
    have hne : ¬ (frame_count s - 1 = 0) := by omega
    have hden : ((frame_count s - 1 : Int) : ℚ) = -1 := by
      rw [h]
      norm_num
    rw [hstep]
    by_cases hdir : s.frame_end < s.frame_start
    · rw [if_pos hdir, if_pos hdir, if_neg hne, hden]
      rw [div_neg, div_one, neg_neg]
    · rw [if_neg hdir, if_neg hdir, if_neg hne, hden]
      rw [div_neg, div_one]
  · intro hdir h
    have hne : ¬ (frame_count s - 1 = 0) := by omega
    rw [hstep, if_pos hdir, if_neg hne]
    have hextpos : (0 : ℚ) < (frame_extents s : ℚ) := by
      have hext : frame_extents s = -(s.frame_end - s.frame_start) := abs_of_neg (by omega)
      have : 1 ≤ frame_extents s := by omega
      exact_mod_cast lt_of_lt_of_le zero_lt_one (by exact_mod_cast this)
    have hdenpos : (0 : ℚ) < ((frame_count s - 1 : Int) : ℚ) := by
      exact_mod_cast (by omega : (0 : Int) < frame_count s - 1)
    have := div_pos hextpos hdenpos
    linarith

unseal Rat.mul Rat.inv Rat.add Rat.sub in
/-- Witness for C4 at a concrete reversed range: start 6, end 0, full
compression ratio, quota 0 give frame_count 7 and a negative step. -/
theorem C4_frame_step_cases_witness :
    frame_step ⟨[65], 6, 0, 1, 0, 30⟩ =
      (((⟨[65], 6, 0, 1, 0, 30⟩ : PsaBuildSequence).frame_end -
        (⟨[65], 6, 0, 1, 0, 30⟩ : PsaBuildSequence).frame_start : Int) : ℚ) /
        ((frame_count ⟨[65], 6, 0, 1, 0, 30⟩ - 1 : Int) : ℚ) ∧
    frame_step ⟨[65], 6, 0, 1, 0, 30⟩ < 0 :=
  ⟨(C4_frame_step_cases ⟨[65], 6, 0, 1, 0, 30⟩).1 (by decide),
   (C4_frame_step_cases ⟨[65], 6, 0, 1, 0, 30⟩).2.2.2 (by decide) (by decide)⟩

unseal Rat.mul Rat.inv Rat.add Rat.sub in
/-- C4 counterexample to the claim as stated: with frame range 0..1,
compression_ratio 2/5 and quota 0 the code computes frame_count 0, which
is ≤ 1, yet the frame step is -1, not the 0 the claim requires. -/
theorem C4_zero_step_refuted :
    frame_count ⟨[65], 0, 1, 2/5, 0, 30⟩ = 0 ∧
    frame_count ⟨[65], 0, 1, 2/5, 0, 30⟩ ≤ 1 ∧
    frame_step ⟨[65], 0, 1, 2/5, 0, 30⟩ = -1 ∧
    frame_step ⟨[65], 0, 1, 2/5, 0, 30⟩ ≠ 0 := by
  decide

/-! Claim C6: effective fps and per-key time. -/

theorem buildSequenceRec_ok {boneCount : Nat} {fsi : Int} {s : PsaBuildSequence}
    {sq : Psa.Sequence} (h : buildSequenceRec boneCount fsi s = Except.ok sq) :
    sq = mkSeqRec boneCount fsi s := by
  unfold buildSequenceRec at h
  split at h
  · exact absurd h (by simp)
  · split at h
    · exact ((Except.ok.injEq _ _).mp h).symm
    · exact absurd h (by simp)

/-- C6: the fps recorded in a Sequence record equals
frame_count / (frame_count_raw / clip_fps) where clip_fps is the
caller-supplied sequence frame rate, and every key emitted for that
sequence carries time = 1 / fps, independent of its position. -/
theorem C6_fps_and_key_time (boneCount : Nat) (fsi : Int) (s : PsaBuildSequence)
    (sq : Psa.Sequence) (h : buildSequenceRec boneCount fsi s = Except.ok sq) :
    sq.fps = (frame_count s : ℚ) / ((frame_count_raw s : ℚ) / s.fps) ∧
    ∀ k ∈ buildSequenceKeys boneCount s, k.time = 1 / sq.fps := by
  have hsq := buildSequenceRec_ok h
  subst hsq
  refine ⟨rfl, ?_⟩
  intro k hk
  simp only [buildSequenceKeys, List.mem_flatMap, List.mem_map] at hk
  obtain ⟨i, _, b, _, rfl⟩ := hk
  rfl

unseal Rat.mul Rat.inv Rat.add Rat.sub in
/-- Witness for C6 at a concrete sequence: 2 frames at clip fps 30 give
an effective fps of 30 and key times 1/30. -/
theorem C6_fps_and_key_time_witness :
    (mkSeqRec 2 0 ⟨[65], 0, 1, 1, 0, 30⟩).fps =
      (frame_count ⟨[65], 0, 1, 1, 0, 30⟩ : ℚ) /
        ((frame_count_raw ⟨[65], 0, 1, 1, 0, 30⟩ : ℚ) /
          (⟨[65], 0, 1, 1, 0, 30⟩ : PsaBuildSequence).fps) ∧
    ∀ k ∈ buildSequenceKeys 2 ⟨[65], 0, 1, 1, 0, 30⟩,
      k.time = 1 / (mkSeqRec 2 0 ⟨[65], 0, 1, 1, 0, 30⟩).fps :=
  C6_fps_and_key_time 2 0 ⟨[65], 0, 1, 1, 0, 30⟩ (mkSeqRec 2 0 ⟨[65], 0, 1, 1, 0, 30⟩)
    (by decide)

/-! Claim C7: header magic gate of the mesh importer. -/

/-- C7: for every input byte stream whose first section header carries a
type_flags value different from the magic constant 1999801, pskimport
reports the error and returns False without building any model: the
result is the failed outcome carrying the exact message, never the
proceeded outcome that would continue decoding. -/
theorem C7_magic_mismatch_fails (filepath bytes : List Nat)
    (h : (readSectionHeader bytes).type_flags ≠ 1999801) :
    pskimport filepath bytes =
      PskImportResult.failed
        (asciiStr "File " ++ filepath ++ asciiStr " is not a valid PSK file.") := by
  unfold pskimport
  rw [if_pos h]

/-- Witness for C7: an all-zero 32 byte header has type_flags 0 and is
rejected with the exact error message. -/
theorem C7_magic_mismatch_fails_witness :
    pskimport (asciiStr "f.psk") (List.replicate 32 0) =
      PskImportResult.failed
        (asciiStr "File " ++ asciiStr "f.psk" ++ asciiStr " is not a valid PSK file.") :=
  C7_magic_mismatch_fails (asciiStr "f.psk") (List.replicate 32 0) (by decide)

/-! Claim C9: validation before any file output. -/

/-- C9 (amended): with zero exportable bones, build_psa raises the
RuntimeError before the bone loop, the sequence loop and in particular
before psa_export calls write_psa, so the output file is never opened
and no partial file can be created; an empty sequence list, however, is
not rejected (see the counterexample theorem). -/
theorem C9_validation_before_io (bones : List ArmBone) (options : PsaBuildOptions)
    (h : bones = []) :
    build_psa bones options = Except.error (asciiStr "No bones available for export") ∧
    psa_export_opens_file bones options = false := by
  subst h
  refine ⟨rfl, ?_⟩
  rfl

/-- Witness for C9: the empty bone list aborts with the validation error
and the output file is never opened. -/
theorem C9_validation_before_io_witness :
    build_psa [] ⟨[⟨[65], 0, 1, 1, 0, 30⟩], [], []⟩ =
      Except.error (asciiStr "No bones available for export") ∧
    psa_export_opens_file [] ⟨[⟨[65], 0, 1, 1, 0, 30⟩], [], []⟩ = false :=
  C9_validation_before_io [] ⟨[⟨[65], 0, 1, 1, 0, 30⟩], [], []⟩ rfl

/-- C9 counterexample to the claim as stated: an export with one bone
and an empty sequence list is not rejected — build_psa succeeds with
empty sequence and key sections and psa_export goes on to open and
write the output file. -/
theorem C9_empty_sequences_refuted :
    build_psa [⟨0, [82, 79, 79, 84], none⟩] ⟨[], [], []⟩ =
      Except.ok ⟨[⟨[82, 79, 79, 84], 0, 0, 0⟩], [], []⟩ ∧
    psa_export_opens_file [⟨0, [82, 79, 79, 84], none⟩] ⟨[], [], []⟩ = true := by
  decide

/-! Infrastructure for the bone loop: pointwise list update and the
resolved-parent count. -/

theorem listModify_length (f : α → α) (i : Nat) (l : List α) :
    (listModify f i l).length = l.length := by
  induction l generalizing i with
  | nil => cases i <;> rfl
  | cons a as ih =>
    cases i with
    | zero => rfl
    | succ n => simp [listModify, ih]

theorem listModify_get? (f : α → α) (i j : Nat) (l : List α) :
    (listModify f i l).get? j = if j = i then (l.get? j).map f else l.get? j := by
  induction l generalizing i j with
  | nil => simp [listModify]
  | cons a as ih =>
    cases i with
    | zero =>
      cases j with
      | zero => simp [listModify]
      | succ m => simp [listModify]
    | succ n =>
      cases j with
      | zero => simp [listModify]
      | succ m =>
        simp only [listModify, List.get?_cons_succ]
        rw [ih n m]
        by_cases hmn : m = n
        · subst hmn
          simp
        · rw [if_neg hmn, if_neg (by omega)]

theorem bumpChildren_length (p : Nat) (acc : List Psa.Bone) :
    (bumpChildren p acc).length = acc.length :=
  listModify_length _ p acc

theorem countRes_nil (bones : List ArmBone) (i : Nat) : countRes bones [] i = 0 := rfl

theorem countRes_cons (bones : List ArmBone) (b : ArmBone) (l : List ArmBone) (i : Nat) :
    countRes bones (b :: l) i =
      (if parentIndexOf bones b = some i then 1 else 0) + countRes bones l i := by
  unfold countRes
  rw [List.filter_cons]
  by_cases hb : parentIndexOf bones b = some i
  · rw [if_pos (by simpa using hb), if_pos hb]
    simp [Nat.add_comm]
  · rw [if_neg (by simpa using hb), if_neg hb]
    simp

/-- Full characterization of a successful run of the bone loop: the
result extends the accumulator, every accumulator entry gains one
children_count increment per remaining bone whose parent resolves to its
position, every remaining bone contributes a record whose name is its
exact encoding, whose children_count counts the strictly later bones
resolving to its position, and whose parent_index is the resolved
position (0 when unresolved); moreover every resolved parent position
lies strictly below the position of the resolving bone. -/
theorem buildBonesAux_spec (bones : List ArmBone) :
    ∀ (rest : List ArmBone) (acc pb : List Psa.Bone),
      buildBonesAux bones rest acc = Except.ok pb →
      pb.length = acc.length + rest.length ∧
      (∀ i a, acc.get? i = some a →
        pb.get? i = some { a with
          children_count := a.children_count + (countRes bones rest i : Int) }) ∧
      (∀ k b, rest.get? k = some b →
        (∃ nm, cp1252Encode b.name = some nm ∧
          pb.get? (acc.length + k) =
            some ⟨nm, 0, (countRes bones (rest.drop (k + 1)) (acc.length + k) : Int),
                  (((parentIndexOf bones b).getD 0 : Nat) : Int)⟩) ∧
        (∀ p, parentIndexOf bones b = some p → p < acc.length + k)) := by
  intro rest
  induction rest with
  | nil =>
    intro acc pb h
    have hpb : acc = pb := by
      unfold buildBonesAux at h
      exact (Except.ok.injEq _ _).mp h
    subst hpb
    refine ⟨by simp, ?_, ?_⟩
    · intro i a ha
      rw [ha, countRes_nil]
      simp
    · intro k b hb
      simp at hb
  | cons b rest ih =>
    intro acc pb h
    unfold buildBonesAux at h
    split at h
    · simp at h
    · rename_i nm henc
      split at h
      · split at h
        · rename_i hp
          obtain ⟨ih1, ih2, ih3⟩ := ih (acc ++ [⟨nm, 0, 0, 0⟩]) pb h
          refine ⟨?_, ?_, ?_⟩
          · simp only [List.length_append, List.length_cons, List.length_nil] at ih1 ⊢
            omega
          · intro i a ha
            have hi : i < acc.length := by
              by_contra hno
              rw [List.get?_len_le (Nat.le_of_not_lt hno)] at ha
              exact absurd ha (by simp)
            have ha2 : (acc ++ [(⟨nm, 0, 0, 0⟩ : Psa.Bone)]).get? i = some a := by
              rw [List.get?_append hi]
              exact ha
            have h2 := ih2 i a ha2
            have hcr : countRes bones (b :: rest) i = countRes bones rest i := by
              rw [countRes_cons, hp]
              simp
            rw [hcr]
            exact h2
          · intro k b2 hb2
            cases k with
            | zero =>
              have hbb : b = b2 := by simpa using hb2
              subst hbb
              constructor
              · refine ⟨nm, henc, ?_⟩
                have hacc : (acc ++ [(⟨nm, 0, 0, 0⟩ : Psa.Bone)]).get? acc.length =
                    some ⟨nm, 0, 0, 0⟩ := List.get?_concat_length acc _
                have h2 := ih2 acc.length _ hacc
                rw [Nat.add_zero]
                simpa [hp] using h2
              · intro p hp2
                rw [hp] at hp2
                exact absurd hp2 (by simp)
            | succ k2 =>
              have hb3 : rest.get? k2 = some b2 := by simpa using hb2
              obtain ⟨⟨nm2, henc2, hpb2⟩, hpos⟩ := ih3 k2 b2 hb3
              have hidx : (acc ++ [(⟨nm, 0, 0, 0⟩ : Psa.Bone)]).length + k2 =
                  acc.length + (k2 + 1) := by
                simp
                omega
              rw [hidx] at hpb2
              constructor
              · exact ⟨nm2, henc2, hpb2⟩
              · intro p hp2
                have := hpos p hp2
                rw [hidx] at this
                exact this
        · rename_i p hp
          split at h
          · rename_i hplt
            obtain ⟨ih1, ih2, ih3⟩ :=
              ih (bumpChildren p acc ++ [⟨nm, 0, 0, (p : Int)⟩]) pb h
            refine ⟨?_, ?_, ?_⟩
            · simp only [List.length_append, List.length_cons, List.length_nil,
                bumpChildren_length] at ih1 ⊢
              omega
            · intro i a ha
              have hi : i < acc.length := by
                by_contra hno
                rw [List.get?_len_le (Nat.le_of_not_lt hno)] at ha
                exact absurd ha (by simp)
              by_cases hip : i = p
              · subst hip
                have hacc2 : (bumpChildren i acc ++ [(⟨nm, 0, 0, (i : Int)⟩ : Psa.Bone)]).get? i =
                    some { a with children_count := a.children_count + 1 } := by
                  rw [List.get?_append (by rw [bumpChildren_length]; exact hi)]
                  unfold bumpChildren
                  rw [listModify_get?, if_pos rfl, ha]
                  rfl
                have h2 := ih2 i _ hacc2
                have hcr : countRes bones (b :: rest) i = 1 + countRes bones rest i := by
                  rw [countRes_cons, hp, if_pos rfl]
                have hcc : a.children_count + (countRes bones (b :: rest) i : Int) =
                    a.children_count + 1 + (countRes bones rest i : Int) := by
                  rw [hcr]
                  push_cast
                  ring
                rw [hcc]
                exact h2
              · have hacc2 : (bumpChildren p acc ++ [(⟨nm, 0, 0, (p : Int)⟩ : Psa.Bone)]).get? i =
                    some a := by
                  rw [List.get?_append (by rw [bumpChildren_length]; exact hi)]
                  unfold bumpChildren
                  rw [listModify_get?, if_neg hip]
                  exact ha
                have h2 := ih2 i a hacc2
                have hcr : countRes bones (b :: rest) i = countRes bones rest i := by
                  rw [countRes_cons, hp,
                    if_neg (fun he => hip (Option.some.inj he).symm)]
                  simp
                rw [hcr]
                exact h2
            · intro k b2 hb2
              cases k with
              | zero =>
                have hbb : b = b2 := by simpa using hb2
                subst hbb
                constructor
                · refine ⟨nm, henc, ?_⟩
                  have hacc2 : (bumpChildren p acc ++
                      [(⟨nm, 0, 0, (p : Int)⟩ : Psa.Bone)]).get? acc.length =
                      some ⟨nm, 0, 0, (p : Int)⟩ := by
                    have := List.get?_concat_length (bumpChildren p acc)
                      (⟨nm, 0, 0, (p : Int)⟩ : Psa.Bone)
                    rwa [bumpChildren_length] at this
                  have h2 := ih2 acc.length _ hacc2
                  rw [Nat.add_zero]
                  simpa [hp] using h2
                · intro p2 hp2
                  rw [hp] at hp2
                  have : p2 = p := (Option.some.inj hp2).symm
                  omega
              | succ k2 =>
                have hb3 : rest.get? k2 = some b2 := by simpa using hb2
                obtain ⟨⟨nm2, henc2, hpb2⟩, hpos⟩ := ih3 k2 b2 hb3
                have hidx : (bumpChildren p acc ++
                    [(⟨nm, 0, 0, (p : Int)⟩ : Psa.Bone)]).length + k2 =
                    acc.length + (k2 + 1) := by
                  simp [bumpChildren_length]
                  omega
                rw [hidx] at hpb2
                constructor
                · exact ⟨nm2, henc2, hpb2⟩
                · intro p2 hp2
                  have := hpos p2 hp2
                  rw [hidx] at this
                  exact this
          · simp at h
      · simp at h

theorem mem_take_get? {l : List α} {n : Nat} {a : α} (h : a ∈ l.take n) :
    ∃ k, k < n ∧ l.get? k = some a := by
  induction l generalizing n with
  | nil => simp at h
  | cons x xs ih =>
    cases n with
    | zero => simp at h
    | succ m =>
      rw [List.take_succ_cons, List.mem_cons] at h
      rcases h with rfl | h
      · exact ⟨0, by omega, rfl⟩
      · obtain ⟨k, hk, hget⟩ := ih h
        exact ⟨k + 1, by omega, by simpa using hget⟩

theorem countRes_eq_drop (bones l : List ArmBone) (i n : Nat)
    (hnone : ∀ b ∈ l.take n, parentIndexOf bones b ≠ some i) :
    countRes bones l i = countRes bones (l.drop n) i := by
  conv_lhs => rw [← List.take_append_drop n l]
  unfold countRes
  rw [List.filter_append, List.length_append]
  have h0 : List.filter (fun b => parentIndexOf bones b == some i) (l.take n) = [] := by
    rw [List.filter_eq_nil_iff]
    intro a ha
    simpa using hnone a ha
  rw [h0]
  simp

/-- Characterization of a successful buildBones run: one record per
bone, in order, whose name is the exact Windows-1252 encoding of the
bone name, whose children_count counts the bones of the whole list whose
parent resolves to this position, and whose parent_index is the resolved
parent position with default 0. -/
theorem buildBones_spec (bones : List ArmBone) (pb : List Psa.Bone)
    (h : buildBones bones = Except.ok pb) :
    pb.length = bones.length ∧
    ∀ i b, bones.get? i = some b →
      ∃ nm, cp1252Encode b.name = some nm ∧
        pb.get? i = some ⟨nm, 0, (countRes bones bones i : Int),
          (((parentIndexOf bones b).getD 0 : Nat) : Int)⟩ := by
  obtain ⟨h1, _, h3⟩ := buildBonesAux_spec bones bones [] pb h
  refine ⟨by simpa using h1, ?_⟩
  intro i b hb
  obtain ⟨⟨nm, henc, hrec⟩, _⟩ := h3 i b hb
  simp only [List.length_nil, Nat.zero_add] at hrec
  refine ⟨nm, henc, ?_⟩
  have hcr : countRes bones bones i = countRes bones (bones.drop (i + 1)) i := by
    apply countRes_eq_drop
    intro a ha hres
    obtain ⟨k, hk, hget⟩ := mem_take_get? ha
    obtain ⟨_, hpos2⟩ := h3 k a hget
    have := hpos2 i hres
    simp only [List.length_nil, Nat.zero_add] at this
    omega
  rw [hcr]
  exact hrec

/-! Claim C5: children counts. -/

/-- C5 (amended): each emitted Bone record carries a children_count
equal to the number of bones of the exported list whose parent is
present in the list and resolves to that record position; a record whose
parent is absent (the root included) carries the default parent_index 0
without being counted as a child of record 0, so the count can differ
from a plain count of matching parent_index fields at position 0. -/
theorem C5_children_count_resolved (bones : List ArmBone) (pb : List Psa.Bone)
    (h : buildBones bones = Except.ok pb) (i : Nat) (b : ArmBone)
    (hb : bones.get? i = some b) :
    ∃ r, pb.get? i = some r ∧
      r.children_count = (countRes bones bones i : Int) ∧
      r.parent_index = (((parentIndexOf bones b).getD 0 : Nat) : Int) := by
  obtain ⟨_, hspec⟩ := buildBones_spec bones pb h
  obtain ⟨nm, _, hrec⟩ := hspec i b hb
  exact ⟨_, hrec, rfl, rfl⟩

/-- Witness for C5 on a three bone chain root-mid-tip: the root record
counts exactly one resolved child. -/
theorem C5_children_count_resolved_witness :
    ∃ r, ([⟨[82], 0, 1, 0⟩, ⟨[77], 0, 1, 0⟩, ⟨[84], 0, 0, 1⟩] : List Psa.Bone).get? 0 =
        some r ∧
      r.children_count =
        (countRes [⟨0, [82], none⟩, ⟨1, [77], some 0⟩, ⟨2, [84], some 1⟩]
          [⟨0, [82], none⟩, ⟨1, [77], some 0⟩, ⟨2, [84], some 1⟩] 0 : Int) ∧
      r.parent_index =
        (((parentIndexOf [⟨0, [82], none⟩, ⟨1, [77], some 0⟩, ⟨2, [84], some 1⟩]
          ⟨0, [82], none⟩).getD 0 : Nat) : Int) :=
  C5_children_count_resolved [⟨0, [82], none⟩, ⟨1, [77], some 0⟩, ⟨2, [84], some 1⟩]
    [⟨[82], 0, 1, 0⟩, ⟨[77], 0, 1, 0⟩, ⟨[84], 0, 0, 1⟩] (by decide) 0 ⟨0, [82], none⟩
    (by decide)

/-- C5 counterexample to the claim as stated: a single root bone yields
one record with parent_index 0 and children_count 0; the number of
records whose parent_index field equals 0 is 1 (the root itself carries
parent_index 0), so children_count does not equal that count. -/
theorem C5_root_self_count_refuted :
    buildBones [⟨0, [82, 79, 79, 84], none⟩] =
      Except.ok [⟨[82, 79, 79, 84], 0, 0, 0⟩] ∧
    (⟨[82, 79, 79, 84], 0, 0, 0⟩ : Psa.Bone).children_count = 0 ∧
    (([(⟨[82, 79, 79, 84], 0, 0, 0⟩ : Psa.Bone)].filter
      (fun r => r.parent_index == 0)).length : Int) = 1 ∧
    (0 : Int) ≠ 1 := by
  decide

/-! Claim C10: bones with an absent parent. -/

theorem filter_eraseIdx_of_not (p : α → Bool) :
    ∀ (l : List α) (i : Nat) (a : α), l.get? i = some a → p a = false →
      (l.eraseIdx i).filter p = l.filter p := by
  intro l
  induction l with
  | nil =>
    intro i a h
    simp at h
  | cons x xs ih =>
    intro i a h hpa
    cases i with
    | zero =>
      have hx : x = a := by simpa using h
      subst hx
      rw [List.eraseIdx_cons_zero, List.filter_cons, if_neg (by simp [hpa])]
    | succ n =>
      have h2 : xs.get? n = some a := by simpa using h
      rw [List.eraseIdx_cons_succ, List.filter_cons, List.filter_cons, ih n a h2 hpa]

/-- C10: a bone whose parent is absent from the exported list (the root
bone included) gets parent_index 0 in its record — the very value a
child of bone 0 would carry — and contributes no children_count
increment to any record: every children_count is unchanged when that
bone is removed from the count. -/
theorem C10_absent_parent_default (bones : List ArmBone) (pb : List Psa.Bone)
    (h : buildBones bones = Except.ok pb) (i : Nat) (b : ArmBone)
    (hb : bones.get? i = some b) (habs : parentIndexOf bones b = none) :
    ∃ r, pb.get? i = some r ∧ r.parent_index = 0 ∧
      ∀ j rj, pb.get? j = some rj →
        rj.children_count = (countRes bones (bones.eraseIdx i) j : Int) := by
  obtain ⟨hlen, hspec⟩ := buildBones_spec bones pb h
  obtain ⟨nm, henc, hrec⟩ := hspec i b hb
  refine ⟨_, hrec, by rw [habs]; rfl, ?_⟩
  intro j rj hrj
  have hj : j < bones.length := by
    rw [← hlen]
    by_contra hno
    rw [List.get?_len_le (Nat.le_of_not_lt hno)] at hrj
    exact absurd hrj (by simp)
  obtain ⟨bj, hbj⟩ : ∃ bj, bones.get? j = some bj := by
    cases hg : bones.get? j with
    | none =>
      rw [List.get?_eq_none] at hg
      omega
    | some bj => exact ⟨bj, rfl⟩
  obtain ⟨nmj, hencj, hrecj⟩ := hspec j bj hbj
  rw [hrecj] at hrj
  have hrj2 : rj = ⟨nmj, 0, (countRes bones bones j : Int),
      (((parentIndexOf bones bj).getD 0 : Nat) : Int)⟩ := by
    exact (Option.some.inj hrj).symm
  subst hrj2
  have : countRes bones (bones.eraseIdx i) j = countRes bones bones j := by
    unfold countRes
    rw [filter_eraseIdx_of_not _ bones i b hb (by simp [habs])]
  rw [this]

/-- Witness for C10: a list with a root and a bone whose parent id 99
matches nothing; the orphan record carries parent_index 0 and no record
counts it as a child. -/
theorem C10_absent_parent_default_witness :
    ∃ r, ([⟨[65], 0, 0, 0⟩, ⟨[66], 0, 0, 0⟩] : List Psa.Bone).get? 1 = some r ∧
      r.parent_index = 0 ∧
      ∀ j rj, ([⟨[65], 0, 0, 0⟩, ⟨[66], 0, 0, 0⟩] : List Psa.Bone).get? j = some rj →
        rj.children_count =
          (countRes [⟨0, [65], none⟩, ⟨1, [66], some 99⟩]
            (([⟨0, [65], none⟩, ⟨1, [66], some 99⟩] : List ArmBone).eraseIdx 1) j : Int) :=
  C10_absent_parent_default [⟨0, [65], none⟩, ⟨1, [66], some 99⟩]
    [⟨[65], 0, 0, 0⟩, ⟨[66], 0, 0, 0⟩] (by decide) 1 ⟨1, [66], some 99⟩ (by decide)
    (by decide)

/-! Infrastructure for the sequence loop. -/

/-- The sequence records in emission order, with the running
frame_start_index threaded exactly as the loop does. -/
def seqRecords (bc : Nat) (fsi : Int) :
    List PsaBuildSequence → List (List Nat × Psa.Sequence)
  | [] => []
  | s :: rest => (s.name, mkSeqRec bc fsi s) :: seqRecords bc (fsi + frame_count s) rest

/-- Concatenation of the per-sequence key blocks in emission order. -/
def seqKeys (bc : Nat) : List PsaBuildSequence → List Psa.Key
  | [] => []
  | s :: rest => buildSequenceKeys bc s ++ seqKeys bc rest

/-- Sum of the frame counts of a list of sequences. -/
def sumFrameCounts (l : List PsaBuildSequence) : Int := (l.map frame_count).sum

theorem odInsert_of_not_mem (od : List (List Nat × Psa.Sequence)) (k : List Nat)
    (v : Psa.Sequence) (h : ∀ p ∈ od, p.1 ≠ k) : odInsert od k v = od ++ [(k, v)] := by
  unfold odInsert
  rw [if_neg]
  simp only [List.any_eq_true, beq_iff_eq, not_exists, not_and]
  intro p hp
  exact h p hp

theorem buildSequencesAux_spec (bc : Nat) :
    ∀ (seqs : List PsaBuildSequence) (od0 : List (List Nat × Psa.Sequence))
      (keys0 : List Psa.Key) (fsi : Int) (od : List (List Nat × Psa.Sequence))
      (keys : List Psa.Key),
      buildSequencesAux bc seqs od0 keys0 fsi = Except.ok (od, keys) →
      (∀ s ∈ seqs, ∀ p ∈ od0, p.1 ≠ s.name) →
      (seqs.map (fun s => s.name)).Nodup →
      od = od0 ++ seqRecords bc fsi seqs ∧ keys = keys0 ++ seqKeys bc seqs := by
  intro seqs
  induction seqs with
  | nil =>
    intro od0 keys0 fsi od keys h _ _
    unfold buildSequencesAux at h
    have h2 := (Except.ok.injEq _ _).mp h
    have ho : od0 = od := congrArg Prod.fst h2
    have hk : keys0 = keys := congrArg Prod.snd h2
    subst ho
    subst hk
    exact ⟨by simp [seqRecords], by simp [seqKeys]⟩
  | cons s rest ih =>
    intro od0 keys0 fsi od keys h hdisj hnd
    unfold buildSequencesAux at h
    split at h
    · simp at h
    · rename_i sq hsq
      have hsqv : sq = mkSeqRec bc fsi s := buildSequenceRec_ok hsq
      subst hsqv
      have hins : odInsert od0 s.name (mkSeqRec bc fsi s) =
          od0 ++ [(s.name, mkSeqRec bc fsi s)] :=
        odInsert_of_not_mem _ _ _ (fun p hp => hdisj s (by simp) p hp)
      rw [hins] at h
      have hnds : s.name ∉ rest.map (fun t => t.name) ∧
          (rest.map (fun t => t.name)).Nodup := by
        have := hnd
        rw [List.map_cons, List.nodup_cons] at this
        exact this
      have hdisj2 : ∀ t ∈ rest, ∀ p ∈ od0 ++ [(s.name, mkSeqRec bc fsi s)],
          p.1 ≠ t.name := by
        intro t ht p hp
        rcases List.mem_append.mp hp with hp0 | hp1
        · exact hdisj t (by simp [ht]) p hp0
        · have hps : p = (s.name, mkSeqRec bc fsi s) := by simpa using hp1
          subst hps
          intro he
          have he2 : s.name = t.name := he
          exact hnds.1 (he2 ▸ List.mem_map_of_mem (fun t => t.name) ht)
      obtain ⟨h1, h2⟩ := ih _ _ _ od keys h hdisj2 hnds.2
      refine ⟨?_, ?_⟩
      · rw [h1, seqRecords]
        simp
      · rw [h2, seqKeys]
        simp

theorem seqRecords_get? (bc : Nat) :
    ∀ (seqs : List PsaBuildSequence) (fsi : Int) (i : Nat) (s : PsaBuildSequence),
      seqs.get? i = some s →
      (seqRecords bc fsi seqs).get? i =
        some (s.name, mkSeqRec bc (fsi + sumFrameCounts (seqs.take i)) s) := by
  intro seqs
  induction seqs with
  | nil =>
    intro fsi i s h
    simp at h
  | cons t rest ih =>
    intro fsi i s h
    cases i with
    | zero =>
      have hts : t = s := by simpa using h
      subst hts
      simp [seqRecords, sumFrameCounts]
    | succ n =>
      have h2 : rest.get? n = some s := by simpa using h
      have h3 := ih (fsi + frame_count t) n s h2
      have harg : fsi + frame_count t + sumFrameCounts (rest.take n) =
          fsi + sumFrameCounts ((t :: rest).take (n + 1)) := by
        simp only [sumFrameCounts, List.take_succ_cons, List.map_cons, List.sum_cons]
        omega
      rw [harg] at h3
      rw [seqRecords, List.get?_cons_succ]
      exact h3

theorem length_flatMap_range_map {β : Type} (n m : Nat) (g : Nat → Nat → β) :
    ((List.range n).flatMap (fun i => (List.range m).map (g i))).length = n * m := by
  rw [List.length_flatMap]
  have hrep : List.map (List.length ∘ fun i => (List.range m).map (g i)) (List.range n) =
      List.replicate n m := by
    rw [List.eq_replicate_iff]
    simp
  rw [hrep, List.sum_replicate, smul_eq_mul]

theorem buildSequenceKeys_length (bc : Nat) (s : PsaBuildSequence) :
    (buildSequenceKeys bc s).length = (frame_count s).toNat * bc := by
  unfold buildSequenceKeys
  exact length_flatMap_range_map _ _ _

theorem seqKeys_key_offset (bc : Nat) :
    ∀ (l : List PsaBuildSequence), (∀ t ∈ l, 0 ≤ frame_count t) →
      sumFrameCounts l * (bc : Int) = ((seqKeys bc l).length : Int) := by
  intro l
  induction l with
  | nil =>
    intro _
    simp [sumFrameCounts, seqKeys]
  | cons t rest ih =>
    intro h
    have ht := h t (by simp)
    have hrest := ih (fun u hu => h u (by simp [hu]))
    rw [seqKeys, List.length_append]
    simp only [sumFrameCounts, List.map_cons, List.sum_cons] at hrest ⊢
    calc (frame_count t + (rest.map frame_count).sum) * (bc : Int)
        = frame_count t * bc + (rest.map frame_count).sum * bc := by ring
      _ = ((frame_count t).toNat : Int) * bc + ((seqKeys bc rest).length : Int) := by
          rw [Int.toNat_of_nonneg ht, hrest]
      _ = (((buildSequenceKeys bc t).length + (seqKeys bc rest).length : Nat) : Int) := by
          rw [buildSequenceKeys_length]
          push_cast
          ring

/-! Claim C2: frame start indices. -/

/-- C2 (amended): for an export whose final sequence names are pairwise
distinct, the flat key array is the concatenation of the per-sequence
key blocks in emission order, and the frame_start_index recorded in the
i-th Sequence record equals the sum of the frame counts of the preceding
sequences — the indices partition the global frame range, in frames, not
keys; when frame counts are nonnegative, the number of keys emitted by
the preceding sequences equals frame_start_index multiplied by the bone
count (so for 3 bones and a first sequence of 10 raw frames at ratio 1/2
and quota 0, the second sequence has frame_start_index 5, its key block
starting at flat position 15). -/
theorem C2_frame_start_index_partition (bc : Nat) (seqs : List PsaBuildSequence)
    (od : List (List Nat × Psa.Sequence)) (keys : List Psa.Key)
    (h : buildSequencesAux bc seqs [] [] 0 = Except.ok (od, keys))
    (hnd : (seqs.map (fun s => s.name)).Nodup) :
    keys = seqKeys bc seqs ∧
    ∀ i s, seqs.get? i = some s →
      ∃ r, od.get? i = some (s.name, r) ∧
        r.frame_start_index = sumFrameCounts (seqs.take i) ∧
        r.frame_count = frame_count s ∧
        ((∀ t ∈ seqs, 0 ≤ frame_count t) →
          r.frame_start_index * (bc : Int) = ((seqKeys bc (seqs.take i)).length : Int)) := by
  obtain ⟨hod, hkeys⟩ := buildSequencesAux_spec bc seqs [] [] 0 od keys h (by simp) hnd
  refine ⟨by simpa using hkeys, ?_⟩
  intro i s hs
  have hrec := seqRecords_get? bc seqs 0 i s hs
  rw [hod]
  simp only [List.nil_append]
  refine ⟨mkSeqRec bc (0 + sumFrameCounts (seqs.take i)) s, hrec, zero_add _, rfl, ?_⟩
  intro hpos
  have hoff := seqKeys_key_offset bc (seqs.take i)
    (fun t htk => hpos t (List.mem_of_mem_take htk))
  have hfsi : (mkSeqRec bc (0 + sumFrameCounts (seqs.take i)) s).frame_start_index =
      sumFrameCounts (seqs.take i) := zero_add _
  rw [hfsi]
  exact hoff

unseal Rat.mul Rat.inv Rat.add Rat.sub in
/-- Witness for C2 on one bone and one two-frame sequence. -/
theorem C2_frame_start_index_partition_witness :
    ([(⟨0, 0, 1/30⟩ : Psa.Key), ⟨1, 0, 1/30⟩] : List Psa.Key) =
      seqKeys 1 [⟨[65], 0, 1, 1, 0, 30⟩] ∧
    ∀ i s, ([⟨[65], 0, 1, 1, 0, 30⟩] : List PsaBuildSequence).get? i = some s →
      ∃ r, ([([65], mkSeqRec 1 0 ⟨[65], 0, 1, 1, 0, 30⟩)] :
            List (List Nat × Psa.Sequence)).get? i = some (s.name, r) ∧
        r.frame_start_index = sumFrameCounts (([⟨[65], 0, 1, 1, 0, 30⟩] :
          List PsaBuildSequence).take i) ∧
        r.frame_count = frame_count s ∧
        ((∀ t ∈ ([⟨[65], 0, 1, 1, 0, 30⟩] : List PsaBuildSequence), 0 ≤ frame_count t) →
          r.frame_start_index * (1 : Int) =
            ((seqKeys 1 (([⟨[65], 0, 1, 1, 0, 30⟩] : List PsaBuildSequence).take i)).length :
              Int)) :=
  C2_frame_start_index_partition 1 [⟨[65], 0, 1, 1, 0, 30⟩]
    [([65], mkSeqRec 1 0 ⟨[65], 0, 1, 1, 0, 30⟩)]
    [⟨0, 0, 1/30⟩, ⟨1, 0, 1/30⟩] (by decide) (by decide)

unseal Rat.mul Rat.inv Rat.add Rat.sub in
/-- C2 counterexample to the claim as stated: with 3 exported bones, a
first sequence of 10 raw frames at ratio 1/2 and quota 0 (frame_count 5,
emitting 5 x 3 = 15 keys) and a second appended sequence, the second
Sequence record carries frame_start_index 5 — the sum of preceding frame
counts — not 15, the number of keys emitted by the preceding sequence. -/
theorem C2_key_offset_refuted :
    ((buildSequencesAux 3 [⟨[65], 0, 9, 1/2, 0, 30⟩, ⟨[66], 0, 9, 1, 0, 30⟩] [] [] 0).toOption.bind
      (fun r => (r.1.get? 0).map (fun p => p.2.frame_count))) = some 5 ∧
    ((buildSequencesAux 3 [⟨[65], 0, 9, 1/2, 0, 30⟩, ⟨[66], 0, 9, 1, 0, 30⟩] [] [] 0).toOption.bind
      (fun r => (r.1.get? 0).map (fun p => p.2.frame_count * p.2.bone_count))) = some 15 ∧
    ((buildSequencesAux 3 [⟨[65], 0, 9, 1/2, 0, 30⟩, ⟨[66], 0, 9, 1, 0, 30⟩] [] [] 0).toOption.bind
      (fun r => (r.1.get? 1).map (fun p => p.2.frame_start_index))) = some 5 ∧
    (5 : Int) ≠ 15 := by
  decide

/-! Claim C8: name encoding errors. -/

/-- C8: whenever the export loops reach a bone or a sequence whose name
contains a code point the Windows-1252 codec cannot encode, the build
aborts with the RuntimeError whose message contains the offending name
verbatim; and whenever a build succeeds, every stored name field is the
exact byte-for-byte encoding of the source name — nothing is silently
truncated or substituted. -/
theorem C8_name_encoding_errors :
    (∀ (bones : List ArmBone) (acc : List Psa.Bone) (b : ArmBone) (rest : List ArmBone),
      cp1252Encode b.name = none →
        buildBonesAux bones (b :: rest) acc = Except.error (boneNameErrMsg b.name) ∧
        List.IsInfix b.name (boneNameErrMsg b.name)) ∧
    (∀ (bc : Nat) (od : List (List Nat × Psa.Sequence)) (keys : List Psa.Key) (fsi : Int)
      (s : PsaBuildSequence) (rest : List PsaBuildSequence),
      cp1252Encode s.name = none →
        buildSequencesAux bc (s :: rest) od keys fsi = Except.error (seqNameErrMsg s.name) ∧
        List.IsInfix s.name (seqNameErrMsg s.name)) ∧
    (∀ (bones : List ArmBone) (pb : List Psa.Bone), buildBones bones = Except.ok pb →
      ∀ i b, bones.get? i = some b →
        ∃ r, pb.get? i = some r ∧ cp1252Encode b.name = some r.name) ∧
    (∀ (bc : Nat) (fsi : Int) (s : PsaBuildSequence) (sq : Psa.Sequence),
      buildSequenceRec bc fsi s = Except.ok sq → cp1252Encode s.name = some sq.name) := by
  refine ⟨?_, ?_, ?_, ?_⟩
  · intro bones acc b rest h
    constructor
    · unfold buildBonesAux
      rw [h]
    · exact ⟨asciiStr "Bone name \"",
        asciiStr "\" contains characters that cannot be encoded in the Windows-1252 codepage",
        rfl⟩
  · intro bc od keys fsi s rest h
    have hrec : buildSequenceRec bc fsi s = Except.error (seqNameErrMsg s.name) := by
      unfold buildSequenceRec
      rw [h]
    constructor
    · unfold buildSequencesAux
      rw [hrec]
    · exact ⟨asciiStr "Sequence name \"",
        asciiStr "\" contains characters that cannot be encoded in the Windows-1252 codepage",
        rfl⟩
  · intro bones pb h i b hb
    obtain ⟨_, hspec⟩ := buildBones_spec bones pb h
    obtain ⟨nm, henc, hrec⟩ := hspec i b hb
    exact ⟨_, hrec, henc⟩
  · intro bc fsi s sq h
    unfold buildSequenceRec at h
    split at h
    · simp at h
    · rename_i nm henc
      split at h
      · have hsq : sq = mkSeqRec bc fsi s := ((Except.ok.injEq _ _).mp h).symm
        subst hsq
        rw [henc]
        simp [mkSeqRec, henc]
      · simp at h

/-- Witness for C8: a bone named by the single code point 129 (which has
no Windows-1252 byte) aborts the bone loop with the error message
containing the name. -/
theorem C8_name_encoding_errors_witness :
    buildBonesAux [] [⟨0, [129], none⟩] [] =
      Except.error (boneNameErrMsg (⟨0, [129], none⟩ : ArmBone).name) ∧
    List.IsInfix (⟨0, [129], none⟩ : ArmBone).name
      (boneNameErrMsg (⟨0, [129], none⟩ : ArmBone).name) :=
  C8_name_encoding_errors.1 [] [] ⟨0, [129], none⟩ [] (by decide)

end PsaPsk
